import Mathlib

/-!
Verification of the XACRO-to-URDF template-expansion engine in
`src/converter.py` (class `XacroToURDFConverter`).

The development is a shallow embedding: XML element trees become the
inductive type `Elem`, the converter's mutable `properties` / `macros` /
`includes` dictionaries become the record `ConvState`, and each method of
the class becomes a Lean function with the same name in camelCase
(`_get_local_tag` -> `getLocalTag`, `_collect_xacro_elements` ->
`collectElem` / `collectChildren`, and so on).  Python's
`re.sub(r"\$\x7b([^\x7d]+)\x7d", ...)` is embedded as the explicit
left-to-right scanner `scanAux` over character lists.
-/

set_option maxHeartbeats 4000000

/-- Character constant for the dollar sign. -/
def dollarChar : Char := '$'

/-- Character constant for the opening curly brace. -/
def lbraceChar : Char := Char.ofNat 123

/-- Character constant for the closing curly brace. -/
def rbraceChar : Char := Char.ofNat 125

/-- Embedding of Python's substring test `sub in s` on character lists. -/
def hasSubstr (pat : List Char) : List Char → Bool
| [] => pat.isEmpty
| c :: rest => pat.isPrefixOf (c :: rest) || hasSubstr pat rest

/-- Python `sub in s` for strings. -/
def pyContains (s : String) (sub : String) : Bool := hasSubstr sub.data s.data

/-- Python `s.startswith(pre)`. -/
def pyStartsWith (s : String) (p : String) : Bool := p.data.isPrefixOf s.data

/-- Python truthiness of `s.strip()`: true iff `s` has a non-whitespace character. -/
def stripTruthy (s : String) : Bool := s.data.any (fun c => !c.isWhitespace)

/-- Helper for `pySplitWs`: accumulates the current word (reversed). -/
def wordsWsAux (cur : List Char) : List Char → List String
| [] => if cur.isEmpty then [] else [String.mk cur.reverse]
| c :: rest =>
  if c.isWhitespace then
    if cur.isEmpty then wordsWsAux [] rest
    else String.mk cur.reverse :: wordsWsAux [] rest
  else wordsWsAux (c :: cur) rest

/-- Python `s.split()`: split on whitespace runs, dropping empty pieces. -/
def pySplitWs (s : String) : List String := wordsWsAux [] s.data

/-- Lookup in a Python dict modelled as an insertion-ordered association list. -/
def dictGet {α : Type} (d : List (String × α)) (k : String) : Option α :=
  (d.find? (fun p => p.1 == k)).map (fun p => p.2)

/-- Python `d[k] = v`: overwrite in place if the key exists, else append. -/
def dictSet {α : Type} (d : List (String × α)) (k : String) (v : α) : List (String × α) :=
  if (d.find? (fun p => p.1 == k)).isSome then
    d.map (fun p => if p.1 == k then (k, v) else p)
  else d ++ [(k, v)]

/-- Embedding of `_get_local_tag`: strip a `\x7buri\x7dlocal` or `pfx:local`
qualification down to the local tag name (Python `tag.split(sep)[-1]`). -/
def getLocalTag (tag : String) : String :=
  if pyContains tag "\x7d" then
    String.mk ((tag.data.reverse.takeWhile (fun c => c != rbraceChar)).reverse)
  else if pyContains tag ":" then
    String.mk ((tag.data.reverse.takeWhile (fun c => c != ':')).reverse)
  else tag

/-- Embedding of `_is_xacro_element`: a `\x7buri\x7d...` tag whose text contains
`xacro`, or a `pfx:local` tag whose local part is one of the three
declaration keywords or whose pfx is `xacro`.  Bare names return false. -/
def isXacroElement (tag : String) : Bool :=
  if pyContains tag "\x7d" && pyContains tag "xacro" then true
  else if pyContains tag ":" then
    let pfx := String.mk (tag.data.takeWhile (fun c => c != ':'))
    let localPart := String.mk ((tag.data.dropWhile (fun c => c != ':')).drop 1)
    (localPart == "property" || localPart == "macro" || localPart == "include") || pfx == "xacro"
  else false

/-- Leftmost match of the regex `\$\x7b([^\x7d]+)\x7d` at the head of the list:
returns the captured name and the remainder after the closing brace. -/
def matchRef (cs : List Char) : Option (List Char × List Char) :=
match cs with
| d :: b :: rest =>
  if d = dollarChar ∧ b = lbraceChar then
    let nm := rest.takeWhile (fun ch => ch != rbraceChar)
    match rest.drop nm.length with
    | _ :: rest2 => if nm.isEmpty then none else some (nm, rest2)
    | [] => none
  else none
| _ => none

/-- The literal reference text `$\x7bnm\x7d` as a character list. -/
def origRef (nm : List Char) : List Char := dollarChar :: lbraceChar :: (nm ++ [rbraceChar])

/-- Replacement for one matched reference, embedding Python's
`d.get(name, match.group(0)) or match.group(0)`: an absent key or an
empty-string value both yield the original reference text. -/
def replaceFor (lookup : String → Option String) (nm : List Char) : List Char :=
match lookup (String.mk nm) with
| some v => if v == "" then origRef nm else v.data
| none => origRef nm

/-- Left-to-right single-pass scanner of `re.sub`: replacements are emitted
verbatim and never rescanned.  The fuel argument only forces structural
termination; every step consumes at least one character, so any fuel at
least the list length gives the same result. -/
def scanAux (lookup : String → Option String) : Nat → List Char → List Char
| _, [] => []
| 0, c :: rest => c :: rest
| fuel + 1, c :: rest =>
  match matchRef (c :: rest) with
  | some (nm, rest2) => replaceFor lookup nm ++ scanAux lookup fuel rest2
  | none => c :: scanAux lookup fuel rest

/-- Run the scanner over a whole string. -/
def substWith (lookup : String → Option String) (s : String) : String :=
  String.mk (scanAux lookup s.data.length s.data)

/-- Document node: tag, attributes (insertion-ordered), optional text,
optional tail text, and the ordered child list — the fields of an
`xml.etree.ElementTree.Element`. -/
inductive Elem : Type where
| mk (tag : String) (attrib : List (String × String)) (text : Option String)
     (tail : Option String) (children : List Elem)

/-- Tag accessor. -/
def Elem.tag : Elem → String
| .mk t _ _ _ _ => t

/-- Attribute-list accessor. -/
def Elem.attrib : Elem → List (String × String)
| .mk _ a _ _ _ => a

/-- Text accessor. -/
def Elem.text : Elem → Option String
| .mk _ _ tx _ _ => tx

/-- Tail accessor. -/
def Elem.tail : Elem → Option String
| .mk _ _ _ tl _ => tl

/-- Children accessor. -/
def Elem.children : Elem → List Elem
| .mk _ _ _ _ cs => cs

/-- Python `element.get(k)`. -/
def attrGet (e : Elem) (k : String) : Option String := dictGet e.attrib k

/-- Python `element.get(k, d)`. -/
def attrGetD (e : Elem) (k : String) (d : String) : String := (attrGet e k).getD d

mutual
/-- Size of an element: one plus the sizes of all descendants. -/
def esize : Elem → Nat
| .mk _ _ _ _ cs => 1 + lsize cs
/-- Total size of a list of elements. -/
def lsize : List Elem → Nat
| [] => 0
| c :: rest => esize c + lsize rest
end

/-- Converter state: the `properties`, `macros` and `includes` dictionaries
of a `XacroToURDFConverter` instance. -/
structure ConvState where
  properties : List (String × String)
  macros : List (String × Elem)
  includes : List String

/-- Embedding of `_resolve_properties`: replace each `$\x7bname\x7d` with the
global property value when defined and non-empty, else leave the literal
reference text. -/
def resolveProperties (props : List (String × String)) (text : String) : String :=
  substWith (dictGet props) text

/-- Embedding of `_substitute_parameters`: the same scanner, looking names up
in the local parameter mapping instead. -/
def substituteParameters (params : List (String × String)) (text : String) : String :=
  substWith (dictGet params) text

mutual
/-- Embedding of `_collect_xacro_elements` on one element: thread the state
through the children in document order and rebuild the element with the
declaration children removed. -/
def collectElem (st : ConvState) (e : Elem) : ConvState × Elem :=
match e with
| .mk t a tx tl cs =>
  let p := collectChildren st cs
  (p.1, .mk t a tx tl p.2)
/-- The per-child case analysis of `_collect_xacro_elements`: property, macro
and include declarations update the state and are dropped; any other child
is recursed into and kept. -/
def collectChildren (st : ConvState) : List Elem → ConvState × List Elem
| [] => (st, [])
| c :: rest =>
  if getLocalTag c.tag == "property" && isXacroElement c.tag then
    let st2 :=
      match attrGet c "name" with
      | some nm =>
        if nm != "" then
          { st with properties :=
              dictSet st.properties nm (resolveProperties st.properties (attrGetD c "value" "")) }
        else st
      | none => st
    collectChildren st2 rest
  else if getLocalTag c.tag == "macro" && isXacroElement c.tag then
    let st2 :=
      match attrGet c "name" with
      | some nm => if nm != "" then { st with macros := dictSet st.macros nm c } else st
      | none => st
    collectChildren st2 rest
  else if getLocalTag c.tag == "include" && isXacroElement c.tag then
    let fn := attrGetD c "filename" ""
    let st2 := if fn != "" then { st with includes := st.includes ++ [fn] } else st
    collectChildren st2 rest
  else
    let p := collectElem st c
    let q := collectChildren p.1 rest
    (q.1, p.2 :: q.2)
end

mutual
/-- Embedding of `_expand_macro_content`: rebuild a macro-body node, running
`_substitute_parameters` and then `_resolve_properties` on every attribute
value and on non-blank text.  The tail is not copied, and no macro-call
check is made here — children are rebuilt verbatim. -/
def expandMacroContent (props : List (String × String)) (params : List (String × String)) (e : Elem) : Elem :=
match e with
| .mk t a tx _ cs =>
  let a2 := a.foldl (fun acc kv =>
      dictSet acc kv.1 (resolveProperties props (substituteParameters params kv.2))) []
  let cs2 := expandMacroContentList props params cs
  let tx2 :=
    match tx with
    | some s =>
      if s != "" && stripTruthy s then
        some (resolveProperties props (substituteParameters params s))
      else none
    | none => none
  .mk t a2 tx2 none cs2
/-- Children loop of `_expand_macro_content` (the function never returns
`None`, so every child is kept). -/
def expandMacroContentList (props : List (String × String)) (params : List (String × String)) : List Elem → List Elem
| [] => []
| c :: rest => expandMacroContent props params c :: expandMacroContentList props params rest
end

/-- Macro lookup of `_expand_macro_call`: by local tag first, then by the
full tag. -/
def findMacroDef (st : ConvState) (c : Elem) : Option Elem :=
  match dictGet st.macros (getLocalTag c.tag) with
  | some m => some m
  | none => dictGet st.macros c.tag

/-- Parameter-name list of a macro definition: Python
`[p.strip() for p in macro_def.get("params", "").split() if p.strip()]`. -/
def paramNamesOf (mdef : Elem) : List String := pySplitWs (attrGetD mdef "params" "")

/-- Parameter binding built by `_expand_macro_call`: every call attribute
whose name is a declared parameter, its value resolved against the global
properties. -/
def paramValuesOf (st : ConvState) (mdef : Elem) (c : Elem) : List (String × String) :=
  c.attrib.foldl (fun acc kv =>
    if (paramNamesOf mdef).contains kv.1 then
      dictSet acc kv.1 (resolveProperties st.properties kv.2)
    else acc) []

/-- Embedding of `_expand_macro_call`: an unknown macro yields `[]`;
otherwise every body child is rebuilt by `expandMacroContent` under the
call's parameter binding, giving the spliced sibling list. -/
def expandMacroCall (st : ConvState) (c : Elem) : List Elem :=
  match findMacroDef st c with
  | none => []
  | some mdef => mdef.children.map (expandMacroContent st.properties (paramValuesOf st mdef c))

/-- Embedding of `_is_macro_call`. -/
def isMacroCall (st : ConvState) (e : Elem) : Bool :=
  if (dictGet st.macros (getLocalTag e.tag)).isSome then true
  else if (dictGet st.macros e.tag).isSome then true
  else if isXacroElement e.tag && (dictGet st.macros (getLocalTag e.tag)).isSome then true
  else false

mutual
/-- Embedding of `_expand_xacro_elements`: rebuild the node, dropping
`xmlns` declarations whose value mentions `xacro`, resolving the other
attribute values, expanding the children, and keeping only non-blank
resolved text and tail. -/
def expandElem (st : ConvState) (e : Elem) : Elem :=
match e with
| .mk t a tx tl cs =>
  let a2 := a.foldl (fun acc kv =>
      if pyStartsWith kv.1 "xmlns" then
        if pyContains kv.2 "xacro" then acc else dictSet acc kv.1 kv.2
      else dictSet acc kv.1 (resolveProperties st.properties kv.2)) []
  let cs2 := expandChildrenList st cs
  let tx2 :=
    match tx with
    | some s => if s != "" && stripTruthy s then some (resolveProperties st.properties s) else none
    | none => none
  let tl2 :=
    match tl with
    | some s => if s != "" && stripTruthy s then some (resolveProperties st.properties s) else none
    | none => none
  .mk t a2 tx2 tl2 cs2
/-- Children loop of `_expand_xacro_elements`: macro calls are spliced,
unrecognised `xacro:`-prefixed children are skipped, ordinary children are
recursed into. -/
def expandChildrenList (st : ConvState) : List Elem → List Elem
| [] => []
| c :: rest =>
  if isMacroCall st c then expandMacroCall st c ++ expandChildrenList st rest
  else if pyStartsWith c.tag "xacro:" && !(isMacroCall st c) then expandChildrenList st rest
  else expandElem st c :: expandChildrenList st rest
end

/-- Embedding of `parse_xacro`.  `ET.fromstring` is external; its outcome is
the `Except` argument (error = the document is not well-formed markup).
The returned state is the instance state after the call: unchanged when an
error is raised, updated by collection otherwise. -/
def parseXacro (st : ConvState) (parsed : Except String Elem) : ConvState × Except String Elem :=
  match parsed with
  | .error e => (st, .error ("Invalid XACRO XML: " ++ e))
  | .ok root =>
    if root.tag != "robot" then (st, .error "XACRO file must have robot as root element")
    else
      let p := collectElem st root
      (p.1, .ok (expandElem p.1 p.2))

/-- Embedding of `generate_urdf`: a fresh `robot` root carrying the given
name and the processed children whose tags do not start with `xacro:`. -/
def generateUrdf (robotName : String) (processedRoot : Elem) : Elem :=
  .mk "robot" [("name", robotName)] none none
    (processedRoot.children.filter (fun c => !pyStartsWith c.tag "xacro:"))

/-- Embedding of `convert_string` up to the final pretty-printing (a
presentation concern): parse and process, pick the robot name, and build
the URDF tree.  The first component is the instance state afterwards. -/
def convertString (st : ConvState) (parsed : Except String Elem) (robotName : Option String) : ConvState × Except String Elem :=
  match parseXacro st parsed with
  | (st2, .error e) => (st2, .error e)
  | (st2, .ok proot) =>
    let nm :=
      match robotName with
      | some n => n
      | none => attrGetD proot "name" "robot"
    (st2, .ok (generateUrdf nm proot))

/-- Modelled from the spec: `isTemplateTag` as §4.1 words it — template
namespace (URI marker or `xacro` pfx) or local name among the three
declaration keywords, regardless of the tag form. -/
def isTemplateTagSpec (tag : String) : Bool :=
  (pyContains tag "\x7d" && pyContains tag "xacro")
    || (pyContains tag ":" && String.mk (tag.data.takeWhile (fun c => c != ':')) == "xacro")
    || getLocalTag tag == "property" || getLocalTag tag == "macro" || getLocalTag tag == "include"

/-- A tag that the collector treats as a declaration: a template tag whose
local name is `property`, `macro` or `include`. -/
def isDeclTag (t : String) : Bool :=
  isXacroElement t &&
    (getLocalTag t == "property" || getLocalTag t == "macro" || getLocalTag t == "include")

mutual
/-- No declaration-tagged node among the proper descendants. -/
def declFreeElem : Elem → Bool
| .mk _ _ _ _ cs => declFreeList cs
/-- List version of `declFreeElem`. -/
def declFreeList : List Elem → Bool
| [] => true
| c :: rest => !isDeclTag c.tag && declFreeElem c && declFreeList rest
end

/-- No declaration-tagged node anywhere in the tree, root included. -/
def treeDeclFree (e : Elem) : Bool := !isDeclTag e.tag && declFreeElem e

/-- Distinctness of the keys of an association list. -/
def keysNodup {α : Type} : List (String × α) → Bool
| [] => true
| kv :: rest => !(rest.any (fun p => p.1 == kv.1)) && keysNodup rest

/-- One text slot is stable under expansion: absent, or non-blank and fixed
by property resolution. -/
def textClean (st : ConvState) : Option String → Bool
| none => true
| some s => (s != "" && stripTruthy s) && (resolveProperties st.properties s == s)

mutual
/-- The element is already fully expanded with respect to `st`: attribute
keys are distinct, no `xmlns` attribute survives the cleanup filter or is
dropped by it, every attribute value and text slot is fixed by property
resolution, and every descendant is an ordinary (non-call, non-`xacro:`)
clean element. -/
def cleanElem (st : ConvState) : Elem → Bool
| .mk _ a tx tl cs =>
  keysNodup a
    && a.all (fun kv =>
        if pyStartsWith kv.1 "xmlns" then !pyContains kv.2 "xacro"
        else resolveProperties st.properties kv.2 == kv.2)
    && textClean st tx && textClean st tl && cleanList st cs
/-- List version of `cleanElem`. -/
def cleanList (st : ConvState) : List Elem → Bool
| [] => true
| c :: rest =>
  !isMacroCall st c && !pyStartsWith c.tag "xacro:" && cleanElem st c && cleanList st rest
end

/-- The literal reference text for a name, as a string. -/
def refText (n : String) : String := "$\x7b" ++ n ++ "\x7d"

/-! Helper lemmas. -/

theorem esize_pos (e : Elem) : 1 ≤ esize e := by
  cases e with
  | mk t a tx tl cs => simp [esize]

theorem lsize_mem : ∀ {cs : List Elem} {c : Elem}, c ∈ cs → esize c ≤ lsize cs := by
  intro cs
  induction cs with
  | nil => intro c h; cases h
  | cons d rest ih =>
    intro c h
    cases h with
    | head => simp [lsize]
    | tail _ hmem =>
      have := ih hmem
      simp [lsize]
      omega

theorem elem_ind_aux (P : Elem → Prop)
    (step : ∀ t a tx tl cs, (∀ c ∈ cs, P c) → P (.mk t a tx tl cs)) :
    ∀ n (e : Elem), esize e ≤ n → P e := by
  intro n
  induction n with
  | zero =>
    intro e h
    have := esize_pos e
    omega
  | succ n ih =>
    intro e h
    cases e with
    | mk t a tx tl cs =>
      apply step
      intro c hc
      apply ih
      have h1 := lsize_mem hc
      have h2 : esize (Elem.mk t a tx tl cs) = 1 + lsize cs := by simp [esize]
      omega

/-- Structural induction over `Elem` through the nested child lists. -/
theorem elem_ind (P : Elem → Prop)
    (step : ∀ t a tx tl cs, (∀ c ∈ cs, P c) → P (.mk t a tx tl cs)) (e : Elem) : P e :=
  elem_ind_aux P step (esize e) e le_rfl

theorem dictSet_fresh {α : Type} (d : List (String × α)) (k : String) (v : α)
    (h : ∀ p ∈ d, (p.1 == k) = false) : dictSet d k v = d ++ [(k, v)] := by
  have hf : d.find? (fun p => p.1 == k) = none := by
    rw [List.find?_eq_none]
    intro p hp
    simp [h p hp]
  simp [dictSet, hf]

theorem expandAttrs_rebuild (props : List (String × String)) :
    ∀ (a acc : List (String × String)),
    keysNodup a = true →
    (∀ kv ∈ a, ∀ p ∈ acc, (p.1 == kv.1) = false) →
    (∀ kv ∈ a, (if pyStartsWith kv.1 "xmlns" then !pyContains kv.2 "xacro"
                else resolveProperties props kv.2 == kv.2) = true) →
    a.foldl (fun acc kv =>
      if pyStartsWith kv.1 "xmlns" then
        if pyContains kv.2 "xacro" then acc else dictSet acc kv.1 kv.2
      else dictSet acc kv.1 (resolveProperties props kv.2)) acc = acc ++ a := by
  intro a
  induction a with
  | nil => intro acc _ _ _; simp
  | cons kv rest ih =>
    intro acc hnd hfresh hval
    have hnd' : (!(rest.any (fun p => p.1 == kv.1)) && keysNodup rest) = true := by
      simpa [keysNodup] using hnd
    rw [Bool.and_eq_true] at hnd'
    have hany : ∀ p ∈ rest, (p.1 == kv.1) = false := by
      intro p hp
      have h1 := hnd'.1
      rw [Bool.not_eq_true', List.any_eq_false] at h1
      have := h1 p hp
      simpa using this
    have hstep : (if pyStartsWith kv.1 "xmlns" then
        if pyContains kv.2 "xacro" then acc else dictSet acc kv.1 kv.2
      else dictSet acc kv.1 (resolveProperties props kv.2)) = acc ++ [kv] := by
      have hv := hval kv (by simp)
      have hf : ∀ p ∈ acc, (p.1 == kv.1) = false := fun p hp => hfresh kv (by simp) p hp
      by_cases hx : pyStartsWith kv.1 "xmlns" = true
      · rw [if_pos hx] at hv ⊢
        have hnc : pyContains kv.2 "xacro" = false := by simpa using hv
        simp only [hnc, Bool.false_eq_true, if_false]
        rw [dictSet_fresh _ _ _ hf, Prod.mk.eta]
      · rw [if_neg hx] at hv ⊢
        have hr : resolveProperties props kv.2 = kv.2 := by simpa using hv
        rw [hr, dictSet_fresh _ _ _ hf, Prod.mk.eta]
    rw [List.foldl_cons, hstep]
    rw [ih (acc ++ [kv]) hnd'.2 ?_ ?_]
    · simp
    · intro kv2 h2 p hp
      rcases List.mem_append.1 hp with hp1 | hp1
      · exact hfresh kv2 (by simp [h2]) p hp1
      · have hpe : p = kv := by simpa using hp1
        subst hpe
        have h3 := hany kv2 h2
        rw [beq_eq_false_iff_ne] at h3 ⊢
        exact fun hEq => h3 hEq.symm
    · intro kv2 h2
      exact hval kv2 (by simp [h2])

theorem takeWhile_ne_rbrace_append (l : List Char) (h : ∀ c ∈ l, c ≠ rbraceChar) :
    (l ++ [rbraceChar]).takeWhile (fun ch => ch != rbraceChar) = l := by
  induction l with
  | nil => simp [List.takeWhile_cons]
  | cons c rest ih =>
    have hc : (c != rbraceChar) = true := by simp [h c (by simp)]
    simp only [List.cons_append, List.takeWhile_cons, hc, if_true]
    rw [ih (fun c2 hc2 => h c2 (by simp [hc2]))]

theorem matchRef_ref (nm : List Char) (h1 : nm ≠ []) (h2 : ∀ c ∈ nm, c ≠ rbraceChar) :
    matchRef (dollarChar :: lbraceChar :: (nm ++ [rbraceChar])) = some (nm, []) := by
  have ht := takeWhile_ne_rbrace_append nm h2
  simp only [matchRef, ht, if_pos (And.intro rfl rfl), List.drop_left]
  simp [h1]

theorem refText_data (n : String) :
    (refText n).data = dollarChar :: lbraceChar :: (n.data ++ [rbraceChar]) := by
  show ("$\x7b" ++ n ++ "\x7d").data = _
  rw [String.data_append, String.data_append, List.append_assoc]
  rfl

theorem substWith_refText (lookup : String → Option String) (n : String)
    (h1 : n ≠ "") (h2 : ∀ c ∈ n.data, c ≠ rbraceChar) :
    substWith lookup (refText n) = String.mk (replaceFor lookup n.data) := by
  have hnd : n.data ≠ [] := by
    intro h
    apply h1
    cases n with
    | mk l =>
      simp only [String.data] at h
      simp [h]
  have hm := matchRef_ref n.data hnd h2
  unfold substWith
  rw [refText_data n]
  have hlen : (dollarChar :: lbraceChar :: (n.data ++ [rbraceChar])).length
      = (n.data.length + 2) + 1 := by
    simp
  rw [hlen]
  simp only [scanAux, hm, List.append_nil]

theorem substWith_refText_cases (lookup : String → Option String) (n : String)
    (h1 : n ≠ "") (h2 : ∀ c ∈ n.data, c ≠ rbraceChar) :
    substWith lookup (refText n) =
      (match lookup n with
       | some v => if v = "" then refText n else v
       | none => refText n) := by
  rw [substWith_refText lookup n h1 h2]
  have horig : String.mk (origRef n.data) = refText n := by
    have h3 : origRef n.data = (refText n).data := by
      rw [refText_data]
      rfl
    rw [h3]
  unfold replaceFor
  have hmk : String.mk n.data = n := rfl
  rw [hmk]
  cases hl : lookup n with
  | none => exact horig
  | some v =>
    by_cases hv : v = ""
    · simp only [hv, if_pos rfl]
      simpa using horig
    · have : (v == "") = false := by simpa using hv
      simp only [this, Bool.false_eq_true, if_false, if_neg hv]

theorem collectElem_tag (st : ConvState) (e : Elem) : (collectElem st e).2.tag = e.tag := by
  cases e with
  | mk t a tx tl cs => simp [collectElem, Elem.tag]

theorem expandMacroContent_tag (props params : List (String × String)) (e : Elem) :
    (expandMacroContent props params e).tag = e.tag := by
  cases e with
  | mk t a tx tl cs => simp [expandMacroContent, Elem.tag]

theorem isDeclTag_false_of_conds {t : String}
    (h1 : (getLocalTag t == "property" && isXacroElement t) = false)
    (h2 : (getLocalTag t == "macro" && isXacroElement t) = false)
    (h3 : (getLocalTag t == "include" && isXacroElement t) = false) :
    isDeclTag t = false := by
  unfold isDeclTag
  cases hx : isXacroElement t
  · simp
  · rw [hx] at h1 h2 h3
    simp only [Bool.and_true] at h1 h2 h3
    simp [h1, h2, h3]

theorem isDeclTag_true_of_cond {t k : String}
    (hk : k = "property" ∨ k = "macro" ∨ k = "include")
    (h : (getLocalTag t == k && isXacroElement t) = true) : isDeclTag t = true := by
  rw [Bool.and_eq_true] at h
  unfold isDeclTag
  rw [h.2, Bool.true_and]
  rcases hk with hk | hk | hk <;> subst hk <;> simp [h.1]

theorem collectChildren_declFreeList :
    ∀ (cs : List Elem),
    (∀ c ∈ cs, ∀ st, declFreeElem (collectElem st c).2 = true) →
    ∀ st, declFreeList (collectChildren st cs).2 = true := by
  intro cs
  induction cs with
  | nil => intro _ st; simp [collectChildren, declFreeList]
  | cons c rest ih =>
    intro hIH st
    have hIHr : ∀ c2 ∈ rest, ∀ st2, declFreeElem (collectElem st2 c2).2 = true :=
      fun c2 h2 st2 => hIH c2 (by simp [h2]) st2
    simp only [collectChildren]
    split
    · exact ih hIHr _
    · split
      · exact ih hIHr _
      · split
        · exact ih hIHr _
        · rename_i hc1 hc2 hc3
          have hd : isDeclTag c.tag = false :=
            isDeclTag_false_of_conds (by simpa using hc1) (by simpa using hc2)
              (by simpa using hc3)
          show declFreeList ((collectElem st c).2 :: (collectChildren (collectElem st c).1 rest).2) = true
          simp only [declFreeList, Bool.and_eq_true]
          refine ⟨⟨?_, hIH c (by simp) st⟩, ih hIHr _⟩
          rw [collectElem_tag, hd]
          rfl

theorem collectElem_declFree (e : Elem) : ∀ st, declFreeElem (collectElem st e).2 = true := by
  refine elem_ind (fun e => ∀ st, declFreeElem (collectElem st e).2 = true) ?_ e
  intro t a tx tl cs hIH st
  show declFreeElem (Elem.mk t a tx tl (collectChildren st cs).2) = true
  simp only [declFreeElem]
  exact collectChildren_declFreeList cs hIH st

theorem collectChildren_tags :
    ∀ (cs : List Elem) (st : ConvState),
    (collectChildren st cs).2.map Elem.tag = (cs.filter (fun c => !isDeclTag c.tag)).map Elem.tag := by
  intro cs
  induction cs with
  | nil => intro st; simp [collectChildren]
  | cons c rest ih =>
    intro st
    simp only [collectChildren]
    split
    · rename_i h1
      have hd : isDeclTag c.tag = true := isDeclTag_true_of_cond (Or.inl rfl) h1
      rw [List.filter_cons]
      simp [hd, ih]
    · split
      · rename_i h2
        have hd : isDeclTag c.tag = true := isDeclTag_true_of_cond (Or.inr (Or.inl rfl)) h2
        rw [List.filter_cons]
        simp [hd, ih]
      · split
        · rename_i h3
          have hd : isDeclTag c.tag = true := isDeclTag_true_of_cond (Or.inr (Or.inr rfl)) h3
          rw [List.filter_cons]
          simp [hd, ih]
        · rename_i hc1 hc2 hc3
          have hd : isDeclTag c.tag = false :=
            isDeclTag_false_of_conds (by simpa using hc1) (by simpa using hc2)
              (by simpa using hc3)
          show ((collectElem st c).2 :: (collectChildren (collectElem st c).1 rest).2).map Elem.tag = _
          rw [List.filter_cons]
          simp [hd, ih, collectElem_tag]

theorem expandChildrenList_clean (st : ConvState) :
    ∀ (cs : List Elem),
    (∀ c ∈ cs, cleanElem st c = true → expandElem st c = c) →
    cleanList st cs = true → expandChildrenList st cs = cs := by
  intro cs
  induction cs with
  | nil => intro _ _; simp [expandChildrenList]
  | cons c rest ih =>
    intro hIH hcl
    have hcl' : (!isMacroCall st c && !pyStartsWith c.tag "xacro:" && cleanElem st c
        && cleanList st rest) = true := by
      simpa [cleanList] using hcl
    simp only [Bool.and_eq_true] at hcl'
    obtain ⟨⟨⟨hm, hp⟩, hc⟩, hr⟩ := hcl'
    have hm' : isMacroCall st c = false := by simpa using hm
    have hp' : pyStartsWith c.tag "xacro:" = false := by simpa using hp
    simp only [expandChildrenList, hm', hp']
    simp only [Bool.false_eq_true, if_false, Bool.false_and]
    rw [hIH c (by simp) hc, ih (fun c2 h2 hc2 => hIH c2 (by simp [h2]) hc2) hr]

theorem expandChildrenList_append (st : ConvState) :
    ∀ (l1 l2 : List Elem),
    expandChildrenList st (l1 ++ l2) = expandChildrenList st l1 ++ expandChildrenList st l2 := by
  intro l1
  induction l1 with
  | nil => intro l2; simp [expandChildrenList]
  | cons c rest ih =>
    intro l2
    by_cases h1 : isMacroCall st c = true
    · simp [expandChildrenList, h1, ih, List.append_assoc]
    · have h1' : isMacroCall st c = false := by simpa using h1
      by_cases h2 : pyStartsWith c.tag "xacro:" = true
      · simp [expandChildrenList, h1', h2, ih]
      · have h2' : pyStartsWith c.tag "xacro:" = false := by simpa using h2
        simp [expandChildrenList, h1', h2', ih]

theorem resolveProperties_refText (props : List (String × String)) (n : String)
    (h1 : n ≠ "") (h2 : ∀ c ∈ n.data, c ≠ rbraceChar) :
    resolveProperties props (refText n) =
      (match dictGet props n with
       | some v => if v = "" then refText n else v
       | none => refText n) :=
  substWith_refText_cases (dictGet props) n h1 h2

/-! Scenario documents used by the claim theorems. -/

/-- Variable-precedence scenario: the global value of `x` is symbolic, the
one-parameter `link` macro references `x`, the invocation supplies `x="2"`. -/
def precedenceDoc (gv : String) : Elem :=
  .mk "robot" [("name", "test")] none none
    [.mk "xacro:property" [("name", "x"), ("value", gv)] none none [],
     .mk "xacro:macro" [("name", "m"), ("params", "x")] none none
       [.mk "link" [("name", "$\x7bx\x7d")] none none []],
     .mk "m" [("x", "2")] none none []]

/-- Leaf node used as body of the inner macro in the nesting scenario. -/
def innerLeaf : Elem := .mk "inner" [] none none []

/-- Definition of the inner macro `m2`. -/
def m2Def : Elem := .mk "xacro:macro" [("name", "m2")] none none [innerLeaf]

/-- Definition of the outer macro `m1`, whose body invokes `m2`. -/
def m1Def : Elem := .mk "xacro:macro" [("name", "m1")] none none [.mk "m2" [] none none []]

/-- Converter state with both `m1` and `m2` registered. -/
def nestedState : ConvState := ⟨[], [("m1", m1Def), ("m2", m2Def)], []⟩

/-- Invocation of the outer macro. -/
def m1Call : Elem := .mk "m1" [] none none []

/-! Claim theorems. -/

/-- C1 counterexample: with `m1` and `m2` both registered, and an `m2`
invocation inside the body of `m1`, expanding a call of `m1` emits the
`m2` invocation node verbatim — even though `m2` is a registered macro
whose own expansion would be `[innerLeaf]`.  The claim's statement that a
registered invocation inside another macro's body is replaced by its own
expansion is therefore false on the code. -/
theorem c1_counterexample :
    expandElem nestedState (.mk "robot" [] none none [m1Call]) =
      .mk "robot" [] none none [.mk "m2" [] none none []] ∧
    isMacroCall nestedState (.mk "m2" [] none none []) = true ∧
    expandMacroCall nestedState (.mk "m2" [] none none []) = [innerLeaf] :=
  ⟨rfl, rfl, rfl⟩

/-- C1 (amended): expanding a macro invocation splices the macro body's
node sequence in as siblings (zero or many output nodes), with
substitution applied recursively through every body node, but the body
nodes' tags are preserved verbatim: a nested macro invocation inside the
body is copied, not replaced by its own expansion. -/
theorem c1_body_splice_tags (st : ConvState) (c mdef : Elem)
    (h : findMacroDef st c = some mdef) :
    (expandMacroCall st c).map Elem.tag = mdef.children.map Elem.tag := by
  unfold expandMacroCall
  rw [h]
  simp only [List.map_map]
  apply List.map_congr_left
  intro x _
  simp [Function.comp, expandMacroContent_tag]

/-- C1 witness: applying the amended theorem to the concrete nesting
scenario. -/
theorem c1_witness : (expandMacroCall nestedState m1Call).map Elem.tag = ["m2"] := by
  rw [c1_body_splice_tags nestedState m1Call m1Def rfl]
  rfl

/-- C2: for the variable-precedence document — global property `x` with any
value, macro body referencing `x`, invocation supplying `x="2"` — the
expanded body contains `2`, not the global value: local macro-call
parameters shadow global properties. -/
theorem c2_local_shadows_global (gv : String) :
    (parseXacro ⟨[], [], []⟩ (.ok (precedenceDoc gv))).2 =
      .ok (.mk "robot" [("name", "test")] none none
            [.mk "link" [("name", "2")] none none []]) := rfl

/-- C3 counterexample: a property defined with the empty-string value is
not substituted — the reference passes through as literal text, because
the replacement uses Python `properties.get(name, whole) or whole` and the
empty string is falsy.  The claim's statement that a defined property's
value, including the empty string, is substituted is false on the code. -/
theorem c3_counterexample :
    dictGet [("e", "")] "e" = some "" ∧
    resolveProperties [("e", "")] "$\x7be\x7d" = "$\x7be\x7d" ∧
    "$\x7be\x7d" ≠ "" := by
  refine ⟨rfl, rfl, ?_⟩
  decide

/-- C3 (amended): each substitution pass replaces `$\x7bn\x7d` with the
looked-up value only when it is defined and non-empty, else leaves the
literal reference; a defined-but-empty value falls through to the literal
exactly like an undefined one.  In the macro-body composite (parameters
first, then properties) a non-empty local binding wins and is itself
subject to the property pass, an empty or missing local binding falls
through to the non-empty global value, and otherwise the literal survives. -/
theorem c3_resolution_precedence (props params : List (String × String)) (n : String)
    (h1 : n ≠ "") (h2 : ∀ c ∈ n.data, c ≠ rbraceChar) :
    substituteParameters params (refText n) =
      (match dictGet params n with
       | some v => if v = "" then refText n else v
       | none => refText n) ∧
    resolveProperties props (refText n) =
      (match dictGet props n with
       | some v => if v = "" then refText n else v
       | none => refText n) ∧
    resolveProperties props (substituteParameters params (refText n)) =
      (match dictGet params n with
       | some v =>
         if v = "" then
           (match dictGet props n with
            | some w => if w = "" then refText n else w
            | none => refText n)
         else resolveProperties props v
       | none =>
         (match dictGet props n with
          | some w => if w = "" then refText n else w
          | none => refText n)) := by
  have hs := substWith_refText_cases (dictGet params) n h1 h2
  have hr := substWith_refText_cases (dictGet props) n h1 h2
  refine ⟨hs, hr, ?_⟩
  show resolveProperties props (substWith (dictGet params) (refText n)) = _
  rw [hs]
  cases hp : dictGet params n with
  | none => exact hr
  | some v =>
    by_cases hv : v = ""
    · simp only [hv, if_pos rfl]
      exact hr
    · simp only [if_neg hv]

/-- C3 witness: concrete instances of the amended precedence statement. -/
theorem c3_witness :
    substituteParameters [("k", "L")] (refText "k") = "L" ∧
    resolveProperties [("k", "G")] (refText "k") = "G" := by
  have h := c3_resolution_precedence [("k", "G")] [("k", "L")] "k" (by decide) (by decide)
  exact ⟨h.1.trans rfl, h.2.1.trans rfl⟩

/-- C4 counterexample: the bare tag `property` has local name `property`
(one of the three declaration keywords, so the spec-worded classifier
accepts it) yet the code's classifier rejects it: the local-name check
only runs for tags in `pfx:local` form. -/
theorem c4_counterexample :
    isXacroElement "property" = false ∧ getLocalTag "property" = "property" ∧
    isTemplateTagSpec "property" = true :=
  ⟨rfl, rfl, rfl⟩

/-- C4 (amended): the classifier returns true exactly when the tag is a
brace-qualified form whose text contains the `xacro` marker, or a
colon-qualified form whose part after the first colon is one of the three
declaration keywords or whose part before the first colon is `xacro`; in
particular a bare name — even `property`, `macro` or `include` — is never
classified as a template tag. -/
theorem c4_classifier_characterization (tag : String) :
    isXacroElement tag =
      ((pyContains tag "\x7d" && pyContains tag "xacro")
        || (pyContains tag ":" &&
             ((String.mk ((tag.data.dropWhile (fun c => c != ':')).drop 1) == "property"
               || String.mk ((tag.data.dropWhile (fun c => c != ':')).drop 1) == "macro"
               || String.mk ((tag.data.dropWhile (fun c => c != ':')).drop 1) == "include")
              || String.mk (tag.data.takeWhile (fun c => c != ':')) == "xacro"))) := by
  unfold isXacroElement
  by_cases h1 : (pyContains tag "\x7d" && pyContains tag "xacro") = true
  · simp [h1]
  · have h1' : (pyContains tag "\x7d" && pyContains tag "xacro") = false := by simpa using h1
    by_cases h2 : pyContains tag ":" = true
    · simp [h1', h2]
    · have h2' : pyContains tag ":" = false := by simpa using h2
      simp [h1', h2']

/-- C6 counterexample: during macro-body expansion with parameter `x` bound
to the literal text `$\x7by\x7d` and global property `y = A`, the attribute
value `$\x7bx\x7d` becomes `A`: the parameter pass substitutes `$\x7by\x7d`
and the subsequent property pass resolves it, so a parameter value
containing a reference is resolved against global properties within the
same expansion of that text, contradicting the claim. -/
theorem c6_counterexample :
    expandMacroContent [("y", "A")] [("x", "$\x7by\x7d")]
        (.mk "t" [("v", "$\x7bx\x7d")] none none []) =
      .mk "t" [("v", "A")] none none [] := rfl

/-- C6 (amended): each single call of the scanner is single-pass — a
replacement value's own `$\x7b\x7d` content is not re-expanded within that
call (first conjunct: with `x` mapping to the text `$\x7by\x7d` and `y`
defined, one resolution of `$\x7bx\x7d` yields the literal `$\x7by\x7d`)
— but macro-body expansion runs the parameter pass and then a separate
property pass over the same text, so a parameter value containing
`$\x7by\x7d` does get resolved against a defined non-empty global `y`
(second conjunct). -/
theorem c6_two_pass_substitution (A : String) (hA : A ≠ "") :
    resolveProperties [("x", "$\x7by\x7d"), ("y", A)] (refText "x") = refText "y" ∧
    expandMacroContent [("y", A)] [("x", "$\x7by\x7d")]
        (.mk "t" [("v", refText "x")] none none []) =
      .mk "t" [("v", A)] none none [] := by
  constructor
  · rfl
  · have hsub : substituteParameters [("x", "$\x7by\x7d")] (refText "x") = refText "y" := rfl
    have hres := resolveProperties_refText [("y", A)] "y" (by decide) (by decide)
    have hres' : resolveProperties [("y", A)] (refText "y") = A := by
      rw [hres]
      simp [dictGet, hA]
    simp only [expandMacroContent, expandMacroContentList, List.foldl_cons, List.foldl_nil]
    rw [hsub, hres']
    rfl

/-- C6 witness: the amended statement at the concrete global value `A`. -/
theorem c6_witness :
    resolveProperties [("x", "$\x7by\x7d"), ("y", "A")] (refText "x") = refText "y" ∧
    expandMacroContent [("y", "A")] [("x", "$\x7by\x7d")]
        (.mk "t" [("v", refText "x")] none none []) =
      .mk "t" [("v", "A")] none none [] :=
  c6_two_pass_substitution "A" (by decide)

/-- First document of the state-persistence scenario: defines property `x`. -/
def firstDoc : Elem :=
  .mk "robot" [("name", "r1")] none none
    [.mk "xacro:property" [("name", "x"), ("value", "foo")] none none []]

/-- Second document of the state-persistence scenario: references `x` but
defines nothing. -/
def secondDoc : Elem :=
  .mk "robot" [("name", "r2")] none none
    [.mk "link" [("label", "$\x7bx\x7d")] none none []]

/-- C10: converter state persists across `convert_string` calls — the
property collected by the first conversion is still registered afterwards,
a second conversion on the same state resolves `$\x7bx\x7d` with it, and
the same second document converted on a fresh instance leaves the
reference unresolved: the output depends on the accumulated state, not on
the input alone. -/
theorem c10_state_persists :
    (convertString ⟨[], [], []⟩ (.ok firstDoc) none).1.properties = [("x", "foo")] ∧
    (convertString ((convertString ⟨[], [], []⟩ (.ok firstDoc) none).1) (.ok secondDoc) none).2 =
      .ok (.mk "robot" [("name", "r2")] none none
            [.mk "link" [("label", "foo")] none none []]) ∧
    (convertString ⟨[], [], []⟩ (.ok secondDoc) none).2 =
      .ok (.mk "robot" [("name", "r2")] none none
            [.mk "link" [("label", "$\x7bx\x7d")] none none []]) :=
  ⟨rfl, rfl, rfl⟩

/-- C5: after the collection pass, provided the root's own tag is not a
declaration tag (the pipeline guarantees the root is `robot`), the
resulting tree contains zero nodes classified as `property`, `macro` or
`include` declarations, and the surviving children of every node keep
their relative order: the root's child tags are exactly the original
non-declaration child tags in order. -/
theorem c5_declarations_removed (st : ConvState) (e : Elem)
    (hroot : isDeclTag e.tag = false) :
    treeDeclFree (collectElem st e).2 = true ∧
    (collectElem st e).2.children.map Elem.tag
      = (e.children.filter (fun c => !isDeclTag c.tag)).map Elem.tag := by
  constructor
  · unfold treeDeclFree
    rw [collectElem_tag, hroot]
    simp [collectElem_declFree e st]
  · cases e with
    | mk t a tx tl cs =>
      show (collectChildren st cs).2.map Elem.tag = _
      exact collectChildren_tags cs st

/-- Document with property, macro and include declarations at two depths,
used to witness C5. -/
def declDoc : Elem :=
  .mk "robot" [] none none
    [.mk "xacro:property" [("name", "p"), ("value", "1")] none none [],
     .mk "link" [] none none [.mk "xacro:include" [("filename", "f")] none none []],
     .mk "xacro:macro" [("name", "mm")] none none []]

/-- C5 witness: the declaration-removal theorem at a concrete document. -/
theorem c5_witness :
    treeDeclFree (collectElem ⟨[], [], []⟩ declDoc).2 = true ∧
    (collectElem ⟨[], [], []⟩ declDoc).2.children.map Elem.tag
      = (declDoc.children.filter (fun c => !isDeclTag c.tag)).map Elem.tag :=
  c5_declarations_removed ⟨[], [], []⟩ declDoc (by decide)

/-- C7 counterexample: an unknown invocation in brace-namespaced form is
not dropped.  The classifier recognizes the tag as a template tag, it
matches no registered macro, yet expansion keeps it as one output node:
the skip branch of `_expand_xacro_elements` only tests
`tag.startswith("xacro:")`, so the brace form — the very form ET parsing
produces for a declared `xmlns:xacro` prefix — falls into the
ordinary-element branch, contradicting the zero-output-nodes claim. -/
theorem c7_counterexample :
    isXacroElement "\x7bhttp://www.ros.org/wiki/xacro\x7dghost" = true ∧
    isMacroCall ⟨[], [], []⟩
      (.mk "\x7bhttp://www.ros.org/wiki/xacro\x7dghost" [] none none []) = false ∧
    expandElem ⟨[], [], []⟩
        (.mk "robot" [] none none
          [.mk "\x7bhttp://www.ros.org/wiki/xacro\x7dghost" [] none none []])
      = .mk "robot" [] none none
          [.mk "\x7bhttp://www.ros.org/wiki/xacro\x7dghost" [] none none []] :=
  ⟨rfl, rfl, rfl⟩

/-- C7 (amended): an unknown invocation written in the `xacro:`-prefix
form expands to zero output nodes (`expandMacroCall` returns the empty
list), and the expansion of a parent is unchanged by deleting that
invocation from its child list: the siblings before and after it are
expanded unaffected, in their original order, and processing continues
without error.  An unknown invocation in brace-namespaced form is instead
kept as one output node (see the counterexample). -/
theorem c7_unknown_call_drops (st : ConvState) (t : String)
    (a : List (String × String)) (tx tl : Option String)
    (pre post : List Elem) (u : Elem)
    (h1 : pyStartsWith u.tag "xacro:" = true) (h2 : isMacroCall st u = false) :
    expandMacroCall st u = [] ∧
    expandElem st (.mk t a tx tl (pre ++ u :: post))
      = expandElem st (.mk t a tx tl (pre ++ post)) := by
  have hfind : findMacroDef st u = none := by
    unfold isMacroCall at h2
    unfold findMacroDef
    by_cases hg : (dictGet st.macros (getLocalTag u.tag)).isSome = true
    · rw [if_pos hg] at h2
      simp at h2
    · have hg' : dictGet st.macros (getLocalTag u.tag) = none := by
        cases hq : dictGet st.macros (getLocalTag u.tag) with
        | none => rfl
        | some m => rw [hq] at hg; simp at hg
      rw [hg']
      rw [if_neg hg] at h2
      by_cases hf : (dictGet st.macros u.tag).isSome = true
      · rw [if_pos hf] at h2
        simp at h2
      · cases hq2 : dictGet st.macros u.tag with
        | none => rfl
        | some m => rw [hq2] at hf; simp at hf
  constructor
  · unfold expandMacroCall
    rw [hfind]
  · simp only [expandElem, Elem.mk.injEq]
    refine ⟨trivial, trivial, trivial, trivial, ?_⟩
    rw [expandChildrenList_append, expandChildrenList_append]
    congr 1
    simp only [expandChildrenList, h2, h1]
    simp

/-- Unknown `xacro:`-prefixed invocation used to witness C7. -/
def ghostCall : Elem := .mk "xacro:ghost" [] none none []

/-- Sibling before the unknown invocation in the C7 witness. -/
def sibA : Elem := .mk "linkA" [] none none []

/-- Sibling after the unknown invocation in the C7 witness. -/
def sibB : Elem := .mk "linkB" [] none none []

/-- C7 witness: the unknown-invocation theorem at a concrete document. -/
theorem c7_witness :
    expandMacroCall ⟨[], [], []⟩ ghostCall = [] ∧
    expandElem ⟨[], [], []⟩ (.mk "robot" [] none none ([sibA] ++ ghostCall :: [sibB]))
      = expandElem ⟨[], [], []⟩ (.mk "robot" [] none none ([sibA] ++ [sibB])) :=
  c7_unknown_call_drops ⟨[], [], []⟩ "robot" [] none none [sibA] [sibB] ghostCall
    (by decide) (by decide)

/-- C8: `parse_xacro` returns an error exactly when the markup failed to
parse or the root tag is not `robot`, and in that case the instance state
(properties, macros, includes) is unchanged — collection and expansion
only run on success. -/
theorem c8_parse_failfast (st : ConvState) (parsed : Except String Elem) :
    ((∃ m, (parseXacro st parsed).2 = Except.error m) ↔
      ((∃ m, parsed = Except.error m) ∨ (∃ r, parsed = Except.ok r ∧ r.tag ≠ "robot"))) ∧
    (∀ m, (parseXacro st parsed).2 = Except.error m → (parseXacro st parsed).1 = st) := by
  cases parsed with
  | error e =>
    exact ⟨⟨fun _ => Or.inl ⟨e, rfl⟩, fun _ => ⟨"Invalid XACRO XML: " ++ e, rfl⟩⟩,
      fun m _ => rfl⟩
  | ok r =>
    by_cases hr : r.tag = "robot"
    · have hb : (r.tag != "robot") = false := by simp [hr]
      have hok : parseXacro st (Except.ok r) =
          ((collectElem st r).1,
            Except.ok (expandElem (collectElem st r).1 (collectElem st r).2)) := by
        simp [parseXacro, hb]
      rw [hok]
      constructor
      · constructor
        · rintro ⟨m, hm⟩
          exact absurd hm (by simp)
        · rintro (⟨m, hm⟩ | ⟨r2, hr2, hne⟩)
          · exact absurd hm (by simp)
          · injection hr2 with hr2'
            subst hr2'
            exact absurd hr hne
      · intro m hm
        exact absurd hm (by simp)
    · have hb : (r.tag != "robot") = true := by simp [hr]
      have herr : parseXacro st (Except.ok r)
          = (st, Except.error "XACRO file must have robot as root element") := by
        simp [parseXacro, hb]
      rw [herr]
      exact ⟨⟨fun _ => Or.inr ⟨r, rfl, hr⟩, fun _ => ⟨_, rfl⟩⟩, fun m _ => rfl⟩

/-- C8 witness: a malformed-markup outcome leaves the fresh state unchanged. -/
theorem c8_witness :
    (parseXacro ⟨[], [], []⟩ (Except.error "bad")).1 = ⟨[], [], []⟩ :=
  (c8_parse_failfast ⟨[], [], []⟩ (Except.error "bad")).2 ("Invalid XACRO XML: bad") rfl

/-- C9 counterexample: a root with whitespace-only text, no declarations,
no macro invocations and no resolvable references is not returned
structurally identical — expansion drops the blank text — so the claim's
idempotence statement is false as stated. -/
theorem c9_counterexample :
    treeDeclFree (Elem.mk "robot" [] (some " ") none []) = true ∧
    isMacroCall ⟨[], [], []⟩ (Elem.mk "robot" [] (some " ") none []) = false ∧
    resolveProperties [] " " = " " ∧
    expandElem ⟨[], [], []⟩ (Elem.mk "robot" [] (some " ") none [])
      ≠ Elem.mk "robot" [] (some " ") none [] := by
  refine ⟨rfl, rfl, rfl, fun h => ?_⟩
  have h2 : (expandElem ⟨[], [], []⟩ (Elem.mk "robot" [] (some " ") none [])).text = none := rfl
  rw [h] at h2
  exact Option.noConfusion h2

/-- C9 (amended): expansion is the identity on an already-expanded tree
provided additionally that every text and tail slot is absent or non-blank
(whitespace-only text is dropped by expansion), attribute keys are
distinct, and no `xmlns` attribute value contains the `xacro` marker (such
attributes are dropped by expansion); `cleanElem` packages these together
with the claim's own preconditions — no macro-call children, no
`xacro:`-prefixed children, and property resolution fixing every attribute
value and text slot. -/
theorem c9_expand_identity_on_clean (st : ConvState) (e : Elem)
    (h : cleanElem st e = true) : expandElem st e = e := by
  revert h
  refine elem_ind (fun e => cleanElem st e = true → expandElem st e = e) ?_ e
  intro t a tx tl cs hIH h
  have h' : (keysNodup a
      && a.all (fun kv => if pyStartsWith kv.1 "xmlns" then !pyContains kv.2 "xacro"
          else resolveProperties st.properties kv.2 == kv.2)
      && textClean st tx && textClean st tl && cleanList st cs) = true := by
    simpa [cleanElem] using h
  simp only [Bool.and_eq_true] at h'
  obtain ⟨⟨⟨⟨hnd, hall⟩, htx⟩, htl⟩, hcs⟩ := h'
  rw [List.all_eq_true] at hall
  have hattrs := expandAttrs_rebuild st.properties a [] hnd (by intro kv _ p hp; cases hp) hall
  have htext : ∀ s : Option String, textClean st s = true →
      (match s with
       | some s2 =>
         if s2 != "" && stripTruthy s2 then some (resolveProperties st.properties s2) else none
       | none => none) = s := by
    intro s hs
    cases s with
    | none => rfl
    | some s2 =>
      have hs' : ((s2 != "" && stripTruthy s2)
          && (resolveProperties st.properties s2 == s2)) = true := by
        simpa [textClean] using hs
      rw [Bool.and_eq_true] at hs'
      show (if s2 != "" && stripTruthy s2 then some (resolveProperties st.properties s2)
        else none) = some s2
      rw [if_pos hs'.1]
      have hfix : resolveProperties st.properties s2 = s2 := by simpa using hs'.2
      rw [hfix]
  simp only [expandElem, Elem.mk.injEq]
  refine ⟨trivial, ?_, ?_, ?_, ?_⟩
  · rw [hattrs]
    simp
  · exact htext tx htx
  · exact htext tl htl
  · exact expandChildrenList_clean st cs hIH hcs

/-- C9 witness: the amended idempotence theorem at a concrete clean tree. -/
theorem c9_witness :
    expandElem ⟨[], [], []⟩ (Elem.mk "a" [("k", "v")] (some "hi") none
        [Elem.mk "b" [] none (some "t2") []])
      = Elem.mk "a" [("k", "v")] (some "hi") none [Elem.mk "b" [] none (some "t2") []] :=
  c9_expand_identity_on_clean ⟨[], [], []⟩ _ (by decide)
